import Mathlib

/-!
Shallow embedding of `src/splink/settings_validator.py`.

The file embeds the settings-validation pipeline: the `remove_suffix`
canonicalizer, the `InvalidCols` result record, and the methods of
`SettingsValidator` (`input_columns`, `clean_list_of_column_names`,
`remove_prefix_and_suffix_from_column`, `check_column_exists`,
`return_missing_columns`, `clean_and_return_missing_columns`,
`validate_table_name`, `validate_table_names`,
`validate_columns_in_sql_string`, `validate_settings_column`,
`validate_uid`, `validate_cols_to_retain`, `validate_blocking_rules`).

External collaborators are abstracted:
 * sqlglot parsing plus column extraction (lines 194-204 of the source) is
   an oracle `parse : String → Option (List Column)`: `none` models the
   `except Exception: return` branch, `some cols` models the list of
   `exp.Column` nodes found in the parsed tree after
   `remove_quotes_from_identifiers` ran on each.
 * quote-stripping of raw input identifiers (`clean_list_of_column_names`,
   which delegates to `remove_quotes_from_identifiers` from the
   `input_column` module, not part of this repository's sources) is
   parameterized by an arbitrary per-name cleaner `clean : String → String`.
 * `self.input_columns` (the intersection of the per-dataset column sets)
   is passed to the check functions as an explicit `Finset String`
   argument `ic`.

A sqlglot `exp.Column` node is embedded as the pair of the texts that the
source reads from it: `name` (`this`) and `table`.  sqlglot's `col.table`
accessor returns `""` when the table arg is absent or was set to `None`,
so the absent qualifier is modelled by `table = ""`, exactly the value the
source compares against `["l", "r"]`.  Python lists are Lean lists, Python
sets of strings are `Finset String` when only membership matters and
deduplicated lists where the source materializes a list from a set (set
iteration order is unspecified in Python, so any order is a faithful
model).  In-place mutation of a tree node (line 142 sets
`col.args["table"] = None`) is modelled by state passing: a mutating check
takes the node list and returns it alongside its result.
-/

/-- A sqlglot `exp.Column` node, reduced to the two fields the validator
reads: the column identifier text and the table-qualifier text (`""` when
the node carries no qualifier, matching sqlglot's `col.table`). -/
structure Column where
  name : String
  table : String
deriving DecidableEq, Repr

/-- `col.sql()` for a column node: sqlglot joins the non-empty parts with
`"."`, so an empty table qualifier renders as the bare name. -/
def Column.sql (c : Column) : String :=
  if c.table = "" then c.name else c.table ++ "." ++ c.name

/-- Character-list core of `remove_suffix`, operating on the reversed
character sequence.  Python's `re.sub("_[l|r]{1}$", "", c)` deletes a
two-character suffix `_x` where `x` is `l`, `r` or (because `|` sits
inside the character class) a literal `|`; the pattern is case-sensitive,
and `$` also matches just before a single trailing newline. -/
def stripSuffixChars : List Char → List Char
  | '\n' :: x :: '_' :: rest =>
      if x = 'l' ∨ x = 'r' ∨ x = '|' then '\n' :: rest else '\n' :: x :: '_' :: rest
  | x :: '_' :: rest =>
      if x = 'l' ∨ x = 'r' ∨ x = '|' then rest else x :: '_' :: rest
  | l => l

/-- `remove_suffix(c)`: `re.sub("_[l|r]{1}$", "", c)` (line 14-15 of the
source). -/
def remove_suffix (c : String) : String :=
  String.mk (stripSuffixChars c.data.reverse).reverse

/-- The `InvalidCols` NamedTuple: a failure kind tag (`"invalid_cols"`,
`"invalid_table_pref"` or `"invalid_col_suffix"`) and the list of
offending column renderings. -/
structure InvalidCols where
  invalid_type : String
  invalid_columns : List String
deriving DecidableEq, Repr

/-- `InvalidCols.is_valid`: `True if len(self.invalid_columns) > 0 else
False`. -/
def InvalidCols.is_valid (t : InvalidCols) : Bool :=
  decide (0 < t.invalid_columns.length)

/-- `SettingsValidator.clean_list_of_column_names`: clean every raw name
and collect into a set.  The per-name cleaning (tree conversion plus
`remove_quotes_from_identifiers(tree).sql()`) lives outside this
repository and is abstracted as `clean`. -/
def clean_list_of_column_names (clean : String → String) (col_list : List String) :
    Finset String :=
  (col_list.map clean).toFinset

/-- `SettingsValidator.input_columns_by_df`: the cleaned column set of
each input dataset (the dict values, in insertion order). -/
def input_columns_by_df (clean : String → String) (datasets : List (List String)) :
    List (Finset String) :=
  datasets.map (clean_list_of_column_names clean)

/-- `SettingsValidator.input_columns`: `reduce(and_,
self.input_columns_by_df.values())`.  `functools.reduce` with no initial
value raises `TypeError` on an empty iterable, modelled by `none`;
otherwise it left-folds set intersection over the values. -/
def input_columns (clean : String → String) (datasets : List (List String)) :
    Option (Finset String) :=
  match input_columns_by_df clean datasets with
  | [] => none
  | s :: rest => some (rest.foldl (· ∩ ·) s)

/-- `SettingsValidator.remove_prefix_and_suffix_from_column`: sets
`col.args["table"] = None` in place, then returns
`remove_suffix(col.sql())`.  The mutated node is returned alongside the
string. -/
def remove_prefix_and_suffix_from_column (c : Column) : String × Column :=
  let c2 : Column := { c with table := "" }
  (remove_suffix c2.sql, c2)

/-- `SettingsValidator.check_column_exists`: membership of a cleaned name
in the common-columns set. -/
def check_column_exists (ic : Finset String) (column_name : String) : Bool :=
  decide (column_name ∈ ic)

/-- `SettingsValidator.return_missing_columns`: the names of
`cols_to_check` that are absent from the common-columns set, tagged
`"invalid_cols"`.  `cols_to_check` is a Python set; it is modelled as the
list an iteration over that set yields. -/
def return_missing_columns (ic : Finset String) (cols_to_check : List String) :
    InvalidCols :=
  ⟨"invalid_cols", cols_to_check.filter (fun col => !check_column_exists ic col)⟩

/-- A check in the orchestrator's sense: it receives the extracted column
nodes and produces an `InvalidCols`, possibly mutating the nodes (the
returned list is the state of the nodes after the call). -/
def MutCheck : Type :=
  List Column → InvalidCols × List Column

/-- `SettingsValidator.clean_and_return_missing_columns`: canonicalize
every node (mutating each node's table arg to `None`), collect the
canonical names into a set, and report the ones missing from the
common-columns set. -/
def clean_and_return_missing_columns (ic : Finset String) : MutCheck :=
  fun cols =>
    let cleaned := cols.map remove_prefix_and_suffix_from_column
    (return_missing_columns ic (cleaned.map Prod.fst).dedup, cleaned.map Prod.snd)

/-- `SettingsValidator.validate_table_name`: `col.table not in ["l",
"r"]`.  Note the source never tests whether the qualifier is present, so
the empty qualifier text `""` also satisfies this predicate. -/
def validate_table_name (c : Column) : Bool :=
  !(c.table = "l" ∨ c.table = "r")

/-- `SettingsValidator.validate_table_names`: render each node satisfying
`validate_table_name` and tag the list `"invalid_table_pref"`.  This
check mutates nothing, so its state output is its input. -/
def validate_table_names (cols : List Column) : InvalidCols :=
  ⟨"invalid_table_pref", (cols.filter validate_table_name).map Column.sql⟩

/-- `validate_table_names` wrapped as a check of the orchestrator's
signature. -/
def validate_table_names_check : MutCheck :=
  fun cols => (validate_table_names cols, cols)

/-- Lines 205-209 of the source: run every check on `deepcopy(cols)`
(each check sees the pristine node list and its mutations are discarded
with the copy), then keep only results whose `is_valid` flag holds. -/
def runChecks (checks : List MutCheck) (cols : List Column) : List InvalidCols :=
  ((checks.map (fun check => (check cols).1)).filter (fun tree => tree.is_valid))

/-- The checks tuple passed by `validate_blocking_rules` (lines
239-242). -/
def blocking_rule_checks (ic : Finset String) : List MutCheck :=
  [clean_and_return_missing_columns ic, validate_table_names_check]

/-- `SettingsValidator.validate_columns_in_sql_string`: parse the
fragment (returning `none` on the swallowed parse exception), extract the
column nodes, and run the checks on per-check deep copies. -/
def validate_columns_in_sql_string (parse : String → Option (List Column))
    (checks : List MutCheck) (sql_string : String) : Option (List InvalidCols) :=
  match parse sql_string with
  | none => none
  | some cols => some (runChecks checks cols)

/-- `SettingsValidator.validate_settings_column`: report the missing
names of an already-cleaned column set under its settings key, or nothing
when all are present. -/
def validate_settings_column (ic : Finset String) (settings_id : String)
    (cols : List String) : Option (String × InvalidCols) :=
  let missing_cols := return_missing_columns ic cols
  if missing_cols.is_valid then some (settings_id, missing_cols) else none

/-- `SettingsValidator.validate_uid`. -/
def validate_uid (ic : Finset String) (uid : List String) :
    Option (String × InvalidCols) :=
  validate_settings_column ic "unique_id_column_name" uid

/-- `SettingsValidator.validate_cols_to_retain`. -/
def validate_cols_to_retain (ic : Finset String) (cols_to_retain : List String) :
    Option (String × InvalidCols) :=
  validate_settings_column ic "additional_columns_to_retain" cols_to_retain

/-- `SettingsValidator.validate_blocking_rules`: per rule, run the
pipeline; keep an entry only when it returned a non-empty list (Python's
truthiness test on line 244 rejects both `None` and `[]`).  The tracker
dict is modelled as the association list of its insertion-ordered
entries; duplicate rule strings yield the same value, so list and dict
carry the same keys. -/
def validate_blocking_rules (parse : String → Option (List Column))
    (ic : Finset String) (blocking_rules : List String) :
    List (String × List InvalidCols) :=
  blocking_rules.filterMap (fun br =>
    match validate_columns_in_sql_string parse (blocking_rule_checks ic) br with
    | none => none
    | some trees => if trees.isEmpty then none else some (br, trees))

theorem stripSuffixChars_strip (x : Char) (rest : List Char)
    (hx : x = 'l' ∨ x = 'r' ∨ x = '|') :
    stripSuffixChars (x :: '_' :: rest) = rest := by
  rcases hx with h | h | h <;> subst h <;> rfl

theorem stripSuffixChars_newline_strip (x : Char) (rest : List Char)
    (hx : x = 'l' ∨ x = 'r' ∨ x = '|') :
    stripSuffixChars ('\n' :: x :: '_' :: rest) = '\n' :: rest := by
  rcases hx with h | h | h <;> subst h <;> rfl

theorem data_append_reverse (s t : String) :
    (s ++ t).data.reverse = t.data.reverse ++ s.data.reverse := by
  show (s.data ++ t.data).reverse = _
  simp

theorem remove_suffix_append (s : String) (x : Char)
    (hx : x = 'l' ∨ x = 'r' ∨ x = '|') :
    remove_suffix (s ++ String.mk ['_', x]) = s := by
  unfold remove_suffix
  rw [data_append_reverse]
  show String.mk (stripSuffixChars (x :: '_' :: s.data.reverse)).reverse = s
  rw [stripSuffixChars_strip x _ hx]
  simp

theorem remove_suffix_append_newline (s : String) (x : Char)
    (hx : x = 'l' ∨ x = 'r' ∨ x = '|') :
    remove_suffix (s ++ String.mk ['_', x, '\n']) = s ++ String.mk ['\n'] := by
  unfold remove_suffix
  rw [data_append_reverse]
  show String.mk (stripSuffixChars ('\n' :: x :: '_' :: s.data.reverse)).reverse
      = s ++ String.mk ['\n']
  rw [stripSuffixChars_newline_strip x _ hx]
  show String.mk (('\n' :: s.data.reverse).reverse) = String.mk (s.data ++ ['\n'])
  apply congrArg String.mk
  simp

theorem remove_suffix_eq_self (s : String)
    (h : ¬ ∃ (s0 : String) (x : Char), (x = 'l' ∨ x = 'r' ∨ x = '|') ∧
        (s = s0 ++ String.mk ['_', x] ∨ s = s0 ++ String.mk ['_', x, '\n'])) :
    remove_suffix s = s := by
  unfold remove_suffix
  have hself : stripSuffixChars s.data.reverse = s.data.reverse := by
    unfold stripSuffixChars
    split
    · rename_i x rest heq
      rw [if_neg]
      · exact heq.symm
      · intro hx
        apply h
        refine ⟨String.mk rest.reverse, x, hx, Or.inr ?_⟩
        have hdata : s.data = rest.reverse ++ ['_', x, '\n'] := by
          have := congrArg List.reverse heq
          simpa using this
        show s = String.mk (rest.reverse ++ ['_', x, '\n'])
        calc s = String.mk s.data := rfl
          _ = String.mk (rest.reverse ++ ['_', x, '\n']) := by rw [hdata]
    · rename_i l0 x rest hfall heq
      rw [if_neg]
      · exact heq.symm
      · intro hx
        apply h
        refine ⟨String.mk rest.reverse, x, hx, Or.inl ?_⟩
        have hdata : s.data = rest.reverse ++ ['_', x] := by
          have := congrArg List.reverse heq
          simpa using this
        show s = String.mk (rest.reverse ++ ['_', x])
        calc s = String.mk s.data := rfl
          _ = String.mk (rest.reverse ++ ['_', x]) := by rw [hdata]
    · rfl
  rw [hself]
  show String.mk s.data.reverse.reverse = s
  simp

/-- C1: the table-alias check is meant to flag only references with a
non-empty qualifier outside `{"l", "r"}`, but `validate_table_name` never
tests for presence: a reference with no qualifier at all (sqlglot
`col.table` is `""`) satisfies `"" not in ["l", "r"]` and is flagged. -/
theorem validate_table_names_flags_unqualified :
    validate_table_names [{ name := "name", table := "" }] =
      ⟨"invalid_table_pref", ["name"]⟩ ∧
    (validate_table_names [{ name := "name", table := "" }]).is_valid = true := by
  decide

/-- C2 counterexample: on an empty dataset mapping, `input_columns` is
Python's `reduce` over an empty iterable with no initial value, which
raises `TypeError` (modelled `none`); it does not yield the empty set. -/
theorem input_columns_empty_mapping_cex :
    input_columns (fun s => s) [] = none ∧
    input_columns (fun s => s) [] ≠ some ∅ := by
  decide

/-- C2 amended: if the mapping of input datasets is empty, computing
`input_columns` raises (`reduce()` of empty iterable with no initial
value), modelled as `none`; it does not degrade to the empty set. -/
theorem input_columns_empty_mapping_raises (clean : String → String) :
    input_columns clean [] = none := rfl

/-- C3 counterexample: the suffix regex `_[l|r]{1}$` is case-sensitive
and its character class contains a literal `|`, so `name_|` is stripped
to `name` while `name_L` is left untouched — contradicting the claimed
case-insensitive `_l`/`_r`-only stripping. -/
theorem remove_suffix_cex :
    remove_suffix "name_|" = "name" ∧
    remove_suffix "name_L" = "name_L" ∧
    (remove_prefix_and_suffix_from_column ⟨"name_|", "l"⟩).1 = "name" := by
  decide

/-- C3 amended: canonicalization removes the table qualifier
unconditionally and strips a trailing two-character suffix exactly when it
is `_l`, `_r` or `_|` (case-sensitive; the suffix is also stripped when it
sits just before a single trailing newline), at most once; in particular
`canon("r.name_r") = canon("l.name_l") = canon("name") = "name"` and no
other ending is stripped. -/
theorem remove_prefix_and_suffix_spec :
    (∀ (t : String) (s : String) (x : Char), (x = 'l' ∨ x = 'r' ∨ x = '|') →
      (remove_prefix_and_suffix_from_column ⟨s ++ String.mk ['_', x], t⟩).1 = s ∧
      (remove_prefix_and_suffix_from_column ⟨s ++ String.mk ['_', x, '\n'], t⟩).1
        = s ++ String.mk ['\n']) ∧
    (∀ (t : String) (s : String),
      (¬ ∃ (s0 : String) (x : Char), (x = 'l' ∨ x = 'r' ∨ x = '|') ∧
          (s = s0 ++ String.mk ['_', x] ∨ s = s0 ++ String.mk ['_', x, '\n'])) →
      (remove_prefix_and_suffix_from_column ⟨s, t⟩).1 = s) ∧
    (remove_prefix_and_suffix_from_column ⟨"name_r", "r"⟩).1 = "name" ∧
    (remove_prefix_and_suffix_from_column ⟨"name_l", "l"⟩).1 = "name" ∧
    (remove_prefix_and_suffix_from_column ⟨"name", ""⟩).1 = "name" := by
  refine ⟨?_, ?_, by decide, by decide, by decide⟩
  · intro t s x hx
    constructor
    · show remove_suffix (Column.sql ⟨s ++ String.mk ['_', x], ""⟩) = s
      show remove_suffix (s ++ String.mk ['_', x]) = s
      exact remove_suffix_append s x hx
    · show remove_suffix (s ++ String.mk ['_', x, '\n']) = s ++ String.mk ['\n']
      exact remove_suffix_append_newline s x hx
  · intro t s hs
    show remove_suffix s = s
    exact remove_suffix_eq_self s hs

theorem mem_validate_blocking_rules (parse : String → Option (List Column))
    (ic : Finset String) (rules : List String) (br : String) (v : List InvalidCols) :
    (br, v) ∈ validate_blocking_rules parse ic rules ↔
      br ∈ rules ∧
        validate_columns_in_sql_string parse (blocking_rule_checks ic) br = some v ∧
        v ≠ [] := by
  unfold validate_blocking_rules
  rw [List.mem_filterMap]
  constructor
  · rintro ⟨a, ha, hf⟩
    cases hp : validate_columns_in_sql_string parse (blocking_rule_checks ic) a with
    | none => rw [hp] at hf; cases hf
    | some trees =>
        rw [hp] at hf
        dsimp only at hf
        by_cases he : trees.isEmpty
        · rw [if_pos he] at hf; cases hf
        · rw [if_neg he] at hf
          obtain ⟨rfl, rfl⟩ : a = br ∧ trees = v := by
            cases hf; exact ⟨rfl, rfl⟩
          exact ⟨ha, hp, by simpa [List.isEmpty_iff] using he⟩
  · rintro ⟨hbr, hp, hv⟩
    refine ⟨br, hbr, ?_⟩
    rw [hp]
    dsimp only
    rw [if_neg (by simpa [List.isEmpty_iff] using hv)]

/-- C4: a rule string whose SQL fails to parse (the swallowed exception,
modelled by the parse oracle returning `none`) makes
`validate_columns_in_sql_string` return nothing, and
`validate_blocking_rules` records no entry for that rule. -/
theorem parse_failure_yields_nothing (parse : String → Option (List Column))
    (ic : Finset String) (checks : List MutCheck) (rules : List String)
    (s : String) (h : parse s = none) :
    validate_columns_in_sql_string parse checks s = none ∧
    ∀ v, (s, v) ∉ validate_blocking_rules parse ic rules := by
  have h1 : validate_columns_in_sql_string parse checks s = none := by
    unfold validate_columns_in_sql_string
    rw [h]
  have h2 : validate_columns_in_sql_string parse (blocking_rule_checks ic) s = none := by
    unfold validate_columns_in_sql_string
    rw [h]
  refine ⟨h1, fun v hv => ?_⟩
  rcases (mem_validate_blocking_rules parse ic rules s v).mp hv with ⟨-, hp, -⟩
  rw [h2] at hp
  cases hp

/-- C4 witness: the rule string `"WHERE"` with an oracle on which it does
not parse: no result and no entry in the rule-failure map. -/
theorem parse_failure_yields_nothing_witness :
    validate_columns_in_sql_string (fun _ => none) (blocking_rule_checks ∅) "WHERE" = none ∧
    ∀ v, ("WHERE", v) ∉ validate_blocking_rules (fun _ => none) ∅ ["WHERE"] :=
  parse_failure_yields_nothing (fun _ => none) ∅ (blocking_rule_checks ∅) ["WHERE"]
    "WHERE" rfl

theorem mem_foldl_inter (l : List (Finset String)) (init : Finset String) (x : String) :
    x ∈ l.foldl (· ∩ ·) init ↔ x ∈ init ∧ ∀ s ∈ l, x ∈ s := by
  induction l generalizing init with
  | nil => simp
  | cons s rest ih =>
      simp only [List.foldl_cons, ih, Finset.mem_inter, List.mem_cons]
      constructor
      · rintro ⟨⟨hi, hs⟩, hrest⟩
        exact ⟨hi, fun t ht => ht.elim (fun he => he ▸ hs) (hrest t)⟩
      · rintro ⟨hi, hall⟩
        exact ⟨⟨hi, hall s (Or.inl rfl)⟩, fun t ht => hall t (Or.inr ht)⟩

/-- C5: for a non-empty family of input datasets, `input_columns` is the
intersection of the cleaned per-dataset column sets; for a single dataset
it is that dataset's cleaned column set. -/
theorem input_columns_eq_intersection (clean : String → String)
    (datasets : List (List String)) (h : datasets ≠ []) :
    (∃ S, input_columns clean datasets = some S ∧
        ∀ x, x ∈ S ↔ ∀ d ∈ datasets, x ∈ clean_list_of_column_names clean d) ∧
    ∀ d, input_columns clean [d] = some (clean_list_of_column_names clean d) := by
  constructor
  · cases datasets with
    | nil => exact absurd rfl h
    | cons d ds =>
        refine ⟨(ds.map (clean_list_of_column_names clean)).foldl (· ∩ ·)
          (clean_list_of_column_names clean d), rfl, fun x => ?_⟩
        rw [mem_foldl_inter]
        simp only [List.mem_map, List.mem_cons]
        constructor
        · rintro ⟨hd, hrest⟩ e he
          rcases he with rfl | he
          · exact hd
          · exact hrest _ ⟨e, he, rfl⟩
        · intro hall
          exact ⟨hall d (Or.inl rfl),
            fun s ⟨e, he, hse⟩ => hse ▸ hall e (Or.inr he)⟩
  · intro d
    rfl

/-- C5 witness. -/
theorem input_columns_eq_intersection_witness :
    (∃ S, input_columns (fun s => s) [["a", "b"], ["b", "c"]] = some S ∧
        ∀ x, x ∈ S ↔ ∀ d ∈ [["a", "b"], ["b", "c"]],
          x ∈ clean_list_of_column_names (fun s => s) d) ∧
    ∀ d, input_columns (fun s => s) [d] =
        some (clean_list_of_column_names (fun s => s) d) :=
  input_columns_eq_intersection (fun s => s) [["a", "b"], ["b", "c"]] (by decide)

/-- C6: the missing-column check tags its result `"invalid_cols"` and its
failing list is empty exactly when every canonicalized reference belongs
to the common-columns set. -/
theorem clean_and_return_missing_columns_empty_iff (ic : Finset String)
    (cols : List Column) :
    ((clean_and_return_missing_columns ic cols).1.invalid_type = "invalid_cols") ∧
    (((clean_and_return_missing_columns ic cols).1.invalid_columns = []) ↔
      ∀ c ∈ cols, (remove_prefix_and_suffix_from_column c).1 ∈ ic) := by
  refine ⟨rfl, ?_⟩
  show (((cols.map remove_prefix_and_suffix_from_column).map Prod.fst).dedup.filter
      (fun col => !check_column_exists ic col)) = [] ↔ _
  rw [List.filter_eq_nil_iff]
  simp only [List.mem_dedup, List.map_map, List.mem_map, Function.comp,
    check_column_exists, Bool.not_eq_true', decide_eq_false_iff_not, not_not]
  constructor
  · intro hall c hc
    exact hall _ ⟨c, hc, rfl⟩
  · rintro hall a ⟨c, hc, rfl⟩
    exact hall c hc

theorem runChecks_ne_nil_iff (checks : List MutCheck) (cols : List Column) :
    runChecks checks cols ≠ [] ↔
      ∃ check ∈ checks, ((check cols).1).is_valid = true := by
  unfold runChecks
  rw [Ne, List.filter_eq_nil_iff]
  simp only [List.mem_map, not_forall]
  constructor
  · rintro ⟨t, ⟨check, hc, rfl⟩, hv⟩
    exact ⟨check, hc, by simpa using hv⟩
  · rintro ⟨check, hc, hv⟩
    exact ⟨(check cols).1, ⟨check, hc, rfl⟩, by simpa using hv⟩

/-- C7: `is_valid` holds exactly on a non-empty offending list; a rule is
a key of the rule-failure map exactly when it is in the rule list, parses,
and at least one of the two checks produced a non-empty `InvalidCols`; and
every `InvalidCols` stored in the map has a non-empty list. -/
theorem validate_blocking_rules_only_surfaces_invalid
    (parse : String → Option (List Column)) (ic : Finset String)
    (rules : List String) :
    (∀ t : InvalidCols, t.is_valid = true ↔ t.invalid_columns ≠ []) ∧
    (∀ br, (∃ v, (br, v) ∈ validate_blocking_rules parse ic rules) ↔
      (br ∈ rules ∧ ∃ cols, parse br = some cols ∧
        ∃ check ∈ blocking_rule_checks ic, ((check cols).1).is_valid = true)) ∧
    (∀ br v t, (br, v) ∈ validate_blocking_rules parse ic rules → t ∈ v →
      t.invalid_columns ≠ []) := by
  have hvalid : ∀ t : InvalidCols, t.is_valid = true ↔ t.invalid_columns ≠ [] := by
    intro t
    unfold InvalidCols.is_valid
    rw [decide_eq_true_iff, List.length_pos]
  refine ⟨hvalid, ?_, ?_⟩
  · intro br
    constructor
    · rintro ⟨v, hv⟩
      rcases (mem_validate_blocking_rules parse ic rules br v).mp hv with ⟨hbr, hp, hne⟩
      unfold validate_columns_in_sql_string at hp
      cases hparse : parse br with
      | none => rw [hparse] at hp; cases hp
      | some cols =>
          rw [hparse] at hp
          dsimp only at hp
          obtain rfl : runChecks (blocking_rule_checks ic) cols = v := by
            cases hp; rfl
          exact ⟨hbr, cols, rfl,
            (runChecks_ne_nil_iff (blocking_rule_checks ic) cols).mp hne⟩
    · rintro ⟨hbr, cols, hparse, hcheck⟩
      refine ⟨runChecks (blocking_rule_checks ic) cols, ?_⟩
      rw [mem_validate_blocking_rules]
      refine ⟨hbr, ?_, (runChecks_ne_nil_iff (blocking_rule_checks ic) cols).mpr hcheck⟩
      unfold validate_columns_in_sql_string
      rw [hparse]
  · intro br v t hv ht
    rcases (mem_validate_blocking_rules parse ic rules br v).mp hv with ⟨-, hp, -⟩
    unfold validate_columns_in_sql_string at hp
    cases hparse : parse br with
    | none => rw [hparse] at hp; cases hp
    | some cols =>
        rw [hparse] at hp
        dsimp only at hp
        obtain rfl : runChecks (blocking_rule_checks ic) cols = v := by
          cases hp; rfl
        have := List.of_mem_filter ht
        exact (hvalid t).mp this

/-- C8: each check is handed `deepcopy(cols)` (modelled: every check
receives the pristine node list and the mutated copy is discarded), so
the checks observe no mutation of each other and permuting the checks
permutes the surfaced results; in particular the pipeline over the two
blocking-rule checks computes each check's result from the original
nodes. -/
theorem runChecks_deepcopy_independent (ic : Finset String)
    (checks₁ checks₂ : List MutCheck) (cols : List Column)
    (h : checks₁.Perm checks₂) :
    (runChecks checks₁ cols).Perm (runChecks checks₂ cols) ∧
    runChecks (blocking_rule_checks ic) cols =
      [(clean_and_return_missing_columns ic cols).1,
        (validate_table_names_check cols).1].filter (fun t => t.is_valid) := by
  refine ⟨?_, rfl⟩
  unfold runChecks
  exact (h.map (fun check => (check cols).1)).filter _

/-- C8 witness: the two concrete checks run in either order on a node
list with an invalid qualifier give the same results up to order. -/
theorem runChecks_deepcopy_independent_witness :
    (runChecks [clean_and_return_missing_columns ∅, validate_table_names_check]
        [⟨"name", "x"⟩]).Perm
      (runChecks [validate_table_names_check, clean_and_return_missing_columns ∅]
        [⟨"name", "x"⟩]) ∧
    runChecks (blocking_rule_checks ∅) [⟨"name", "x"⟩] =
      [(clean_and_return_missing_columns ∅ [⟨"name", "x"⟩]).1,
        (validate_table_names_check [⟨"name", "x"⟩]).1].filter (fun t => t.is_valid) :=
  runChecks_deepcopy_independent ∅
    [clean_and_return_missing_columns ∅, validate_table_names_check]
    [validate_table_names_check, clean_and_return_missing_columns ∅]
    [⟨"name", "x"⟩]
    (List.Perm.swap validate_table_names_check (clean_and_return_missing_columns ∅) [])

/-- C9: `validate_settings_column` returns nothing exactly when every
already-cleaned name is a common column, and otherwise the pair of the
settings key with the `"invalid_cols"`-tagged set of the absent names; in
particular a retained column absent from every dataset is reported under
`additional_columns_to_retain`. -/
theorem validate_settings_column_spec (ic : Finset String)
    (settings_id : String) (cols : List String) :
    (validate_settings_column ic settings_id cols = none ↔ ∀ c ∈ cols, c ∈ ic) ∧
    (∀ p, validate_settings_column ic settings_id cols = some p →
      p.1 = settings_id ∧ p.2.invalid_type = "invalid_cols" ∧
      p.2.invalid_columns ≠ [] ∧ ∀ c ∈ p.2.invalid_columns, c ∈ cols ∧ c ∉ ic) ∧
    validate_cols_to_retain {"id", "name"} ["nonexistent"] =
      some ("additional_columns_to_retain", ⟨"invalid_cols", ["nonexistent"]⟩) := by
  have hdef : validate_settings_column ic settings_id cols =
      (if (return_missing_columns ic cols).is_valid = true
        then some (settings_id, return_missing_columns ic cols) else none) := rfl
  have hval : ((return_missing_columns ic cols).is_valid = true) ↔
      ¬ ∀ c ∈ cols, c ∈ ic := by
    show (decide (0 < (cols.filter (fun col => !check_column_exists ic col)).length)
        = true) ↔ _
    rw [decide_eq_true_iff, List.length_pos, Ne, List.filter_eq_nil_iff]
    simp [check_column_exists]
  refine ⟨?_, ?_, by decide⟩
  · rw [hdef]
    by_cases hv : (return_missing_columns ic cols).is_valid = true
    · rw [if_pos hv]
      simp only [reduceCtorEq, false_iff]
      rw [hval] at hv
      exact fun hall => hv hall
    · rw [if_neg hv]
      rw [hval, not_not] at hv
      simp only [true_iff]
      exact hv
  · intro p hp
    rw [hdef] at hp
    by_cases hv : (return_missing_columns ic cols).is_valid = true
    · rw [if_pos hv] at hp
      cases hp
      refine ⟨rfl, rfl, ?_, ?_⟩
      · have := hv
        unfold InvalidCols.is_valid at this
        rw [decide_eq_true_iff, List.length_pos] at this
        exact this
      · intro c hc
        have hc' : c ∈ cols.filter (fun col => !check_column_exists ic col) := hc
        rw [List.mem_filter] at hc'
        exact ⟨hc'.1, by simpa [check_column_exists] using hc'.2⟩
    · rw [if_neg hv] at hp; cases hp

/-- C10: every `InvalidCols` the validator emits — through the
blocking-rule pipeline, the scalar settings checks, or the two check
functions themselves — is tagged `"invalid_cols"` or
`"invalid_table_pref"`; the reserved `"invalid_col_suffix"` kind is never
produced. -/
theorem emitted_kinds_never_col_suffix (parse : String → Option (List Column))
    (ic : Finset String) (rules : List String) (uid cols_to_retain : List String) :
    (∀ br v t, (br, v) ∈ validate_blocking_rules parse ic rules → t ∈ v →
      t.invalid_type = "invalid_cols" ∨ t.invalid_type = "invalid_table_pref") ∧
    (∀ p, validate_uid ic uid = some p → p.2.invalid_type = "invalid_cols") ∧
    (∀ p, validate_cols_to_retain ic cols_to_retain = some p →
      p.2.invalid_type = "invalid_cols") ∧
    (∀ cols, ((clean_and_return_missing_columns ic cols).1).invalid_type
      = "invalid_cols") ∧
    (∀ cols, (validate_table_names cols).invalid_type = "invalid_table_pref") := by
  have hsc : ∀ (sid : String) (cl : List String) p,
      validate_settings_column ic sid cl = some p →
      p.2.invalid_type = "invalid_cols" := by
    intro sid cl p hp
    unfold validate_settings_column at hp
    by_cases hv : (return_missing_columns ic cl).is_valid
    · rw [if_pos hv] at hp
      cases hp
      rfl
    · rw [if_neg hv] at hp; cases hp
  refine ⟨?_, hsc _ _, hsc _ _, fun _ => rfl, fun _ => rfl⟩
  intro br v t hv ht
  rcases (mem_validate_blocking_rules parse ic rules br v).mp hv with ⟨-, hp, -⟩
  unfold validate_columns_in_sql_string at hp
  cases hparse : parse br with
  | none => rw [hparse] at hp; cases hp
  | some cols =>
      rw [hparse] at hp
      dsimp only at hp
      obtain rfl : runChecks (blocking_rule_checks ic) cols = v := by
        cases hp; rfl
      have hmem := List.mem_of_mem_filter ht
      rcases List.mem_map.mp hmem with ⟨check, hcheck, rfl⟩
      simp only [blocking_rule_checks, List.mem_cons, List.mem_singleton,
        List.not_mem_nil, or_false] at hcheck
      rcases hcheck with rfl | rfl
      · left; rfl
      · right; rfl
